import Mathlib

/-!
Verification of the Adams-Bashforth / Adams-Moulton predictor-corrector
integrator (orders 12, 16 and 20) from `adams_12_steps.c`,
`adams_16_steps.c` and `adams_20_steps.c`.

Doubles are modelled as exact rationals (ℚ); the decimal coefficient
literals are taken as the exact integers they denote.  The mutable
`f_history[]` array is modelled as a `List ℚ`, the in-place left shift of
the Step Driver as an explicit function on lists, and the corrector's
bounded `for` loop as structural recursion on the remaining fuel.
-/

namespace Adams

/-- Convergence test from the C sources (`hasConverged`): if both previous
and current estimates exceed 1 in magnitude the tolerance is scaled by
`|y1|` (relative mode), and the test is a strict comparison of `|y0 - y1|`
against the (possibly scaled) tolerance. -/
def hasConverged (y0 y1 epsilon : ℚ) : Bool :=
  let eps := if |y0| > 1 ∧ |y1| > 1 then epsilon * |y1| else epsilon
  if |y0 - y1| < eps then true else false

/-- Accumulation loop `delta += w * f` over a list of already-paired
weight/sample pairs, folded left in list order exactly as the C `for`
loops accumulate. -/
def sumdot (l : List (ℚ × ℚ)) : ℚ :=
  l.foldl (fun acc p => acc + p.1 * p.2) 0

/-- Predictor `Adams_Bashforth_12_Steps` and its 16- and 20-step analogues: the loop
`for (i = 0; i < STEPS; i++, n--) delta += bashforth[i] * f_history[n]`
with `n` starting at `STEPS-1` pairs `bashforth[i]` with
`f_history[STEPS-1-i]`, i.e. the weight list against the reversed history;
the result is `y + h * divisor * delta`. -/
def Adams_Bashforth (bash : List ℚ) (div : ℚ) (y h : ℚ) (hist : List ℚ) : ℚ :=
  y + h * div * sumdot (bash.zip hist.reverse)

/-- Fixed contribution `delta` of the corrector: the loop
`for (i = 1; i < STEPS; i++, n--) delta += moulton[i] * f_history[n]`
with `n` starting at `STEPS-2` pairs `moulton[i]` (for `i = 1..STEPS-1`)
with `f_history[STEPS-1-i]`, i.e. the weight tail against the reversed
first `STEPS-1` history entries. -/
def mouDelta (mou hist : List ℚ) : ℚ :=
  sumdot ((mou.drop 1).zip ((hist.take (mou.length - 1)).reverse))

/-- Result of one corrector call: the final estimate `y[1]`, the returned
iteration count `i+1`, and the number of evaluations of the user
derivative `f` performed (one per executed loop iteration). -/
structure AMResult where
  y1 : ℚ
  ret : ℕ
  evals : ℕ
deriving DecidableEq

/-- The corrector's `for (i = 0; i < iterations; i++)` loop:
`fuel` is the number of iterations still allowed, `done` the number
already performed, `y1` the current estimate.  Each iteration computes
`step y1`, breaks when `hasConverged` holds, and the function returns
`i+1` as in the C code (so `done + 1` on exhaustion with `done` total
iterations performed, and `done + 1` on a break in iteration `done + 1`). -/
def amLoop (step : ℚ → ℚ) (tol : ℚ) : ℕ → ℕ → ℚ → AMResult
  | 0, done, y1 => ⟨y1, done + 1, done⟩
  | fuel + 1, done, y1 =>
    let y1n := step y1
    if hasConverged y1 y1n tol then ⟨y1n, done + 1, done + 1⟩
    else amLoop step tol fuel (done + 1) y1n

/-- The body of one corrector iteration:
`y[1] = y[0] + h * divisor * ( moulton[0] * (*f)(x, y[1]) + delta )`. -/
def amStep (mou : List ℚ) (div : ℚ) (f : ℚ → ℚ → ℚ) (y0 x h : ℚ)
    (hist : List ℚ) : ℚ → ℚ :=
  fun yc => y0 + h * div * (mou.headD 0 * f x yc + mouDelta mou hist)

/-- Corrector `Adams_Moulton_11_Steps` and its analogues, generically in the
coefficient table: `delta` is computed once, then the bounded loop runs
with the iteration body `amStep`. -/
def Adams_Moulton (mou : List ℚ) (div : ℚ) (f : ℚ → ℚ → ℚ) (y0 y1 x h : ℚ)
    (hist : List ℚ) (tol : ℚ) (iters : ℕ) : AMResult :=
  amLoop (amStep mou div f y0 x h hist) tol iters 0 y1

/-- The Step Driver's in-place left shift
`for (i = 0; i < STEPS - 1; i++) f_history[i] = f_history[i+1]`:
each slot `i < STEPS-1` receives the original slot `i+1` (reads are always
ahead of writes, so every read sees the original array); the last slot is
left as it was. -/
def shiftLeft (l : List ℚ) : List ℚ :=
  List.ofFn fun i : Fin l.length =>
    if h : i.val + 1 < l.length then l.get ⟨i.val + 1, h⟩ else l.get i

/-- Result of one Step Driver call: corrected `y[1]`, the raw predictor
output `*y_bashforth`, the updated history buffer, the corrector's
returned iteration count, and the total number of evaluations of `f`. -/
structure StepResult where
  y1 : ℚ
  y_bashforth : ℚ
  hist : List ℚ
  ret : ℕ
  evals : ℕ
deriving DecidableEq

/-- Step Driver `Adams_12_Steps` and its analogues, generically in the tables:
write `f(x0, y[0])` into the last history slot, run the predictor on the
updated buffer, left-shift the buffer, seed `y[1]` with the predictor
output and run the corrector at `x0 + h` on the shifted buffer. -/
def Adams_Steps (bash mou : List ℚ) (div : ℚ) (f : ℚ → ℚ → ℚ) (y0 x0 h : ℚ)
    (hist : List ℚ) (tol : ℚ) (iters : ℕ) : StepResult :=
  let h1 := hist.set (bash.length - 1) (f x0 y0)
  let yb := Adams_Bashforth bash div y0 h h1
  let h2 := shiftLeft h1
  let r := Adams_Moulton mou div f y0 yb (x0 + h) h h2 tol iters
  ⟨r.y1, yb, h2, r.ret, r.evals + 1⟩

/-- History Builder `Adams_12_Build_History` and its analogues:
`for (i = 0; i < STEPS-1; x += h, i++) f_history[i] = (*f)(x, y[i])` —
slot `i` receives `f(x + i*h, y[i])` for `i < STEPS-1`; any further slot
of the buffer is left untouched. -/
def Adams_Build_History (steps : ℕ) (f : ℚ → ℚ → ℚ) (hist y : List ℚ)
    (x h : ℚ) : List ℚ :=
  List.ofFn fun i : Fin hist.length =>
    if i.val < steps - 1 then f (x + i.val * h) (y.getD i.val 0) else hist.get i

/-- Reference corrector loop, written from the spec's description (section 4.2):
repeat up to `N` times — apply the iteration body `step`, stop as soon as
`hasConverged` accepts the previous and new estimates — and return the
final estimate together with the 1-indexed number of iterations
performed (`N + 1` when all `N` iterations ran without convergence,
`1` when `N = 0`). -/
def correctorSpec (step : ℚ → ℚ) (tol : ℚ) : ℕ → ℚ → ℚ × ℕ
  | 0, y1 => (y1, 1)
  | n + 1, y1 =>
    let y1n := step y1
    if hasConverged y1 y1n tol then (y1n, 1)
    else
      let r := correctorSpec step tol n y1n
      (r.1, r.2 + 1)

/-! ### Order 12 (`adams_12_steps.c`) -/

def bashforth12 : List ℚ :=
  [4527766399, -19433810163, 61633227185, -135579356757, 214139355366,
   -247741639374, 211103573298, -131365867290, 58189107627, -17410248271,
   3158642445, -262747265]

def moulton12 : List ℚ :=
  [262747265, 1374799219, -2092490673, 3828828885, -5519460582, 6043521486,
   -4963166514, 3007739418, -1305971115, 384709327, -68928781, 5675265]

def divisor12 : ℚ := 1 / 958003200

def Adams_Bashforth_12_Steps (y h : ℚ) (hist : List ℚ) : ℚ :=
  Adams_Bashforth bashforth12 divisor12 y h hist

def Adams_Moulton_11_Steps (f : ℚ → ℚ → ℚ) (y0 y1 x h : ℚ) (hist : List ℚ)
    (tol : ℚ) (iters : ℕ) : AMResult :=
  Adams_Moulton moulton12 divisor12 f y0 y1 x h hist tol iters

def Adams_12_Steps (f : ℚ → ℚ → ℚ) (y0 x0 h : ℚ) (hist : List ℚ) (tol : ℚ)
    (iters : ℕ) : StepResult :=
  Adams_Steps bashforth12 moulton12 divisor12 f y0 x0 h hist tol iters

def Adams_12_Build_History (f : ℚ → ℚ → ℚ) (hist y : List ℚ) (x h : ℚ) :
    List ℚ :=
  Adams_Build_History 12 f hist y x h

/-! ### Order 16 (`adams_16_steps.c`) -/

def bashforth16 : List ℚ :=
  [362555126427073, -2161567671248849, 9622096909515337, -30607373860520569,
   72558117072259733, -131963191940828581, 187463140112902893,
   -210020588912321949, 186087544263596643, -129930094104237331,
   70724351582843483, -29417910911251819, 9038571752734087,
   -1934443196892599, 257650275915823, -16088129229375]

def moulton16 : List ℚ :=
  [16088129229375, 105145058757073, -230992163723849, 612744541065337,
   -1326978663058069, 2285168598349733, -3129453071993581, 3414941728852893,
   -2966365730265699, 2039345879546643, -1096355235402331, 451403108933483,
   -137515713789319, 29219384284087, -3867689367599, 240208245823]

def divisor16 : ℚ := 1 / 62768369664000

def Adams_Bashforth_16_Steps (y h : ℚ) (hist : List ℚ) : ℚ :=
  Adams_Bashforth bashforth16 divisor16 y h hist

def Adams_Moulton_15_Steps (f : ℚ → ℚ → ℚ) (y0 y1 x h : ℚ) (hist : List ℚ)
    (tol : ℚ) (iters : ℕ) : AMResult :=
  Adams_Moulton moulton16 divisor16 f y0 y1 x h hist tol iters

def Adams_16_Steps (f : ℚ → ℚ → ℚ) (y0 x0 h : ℚ) (hist : List ℚ) (tol : ℚ)
    (iters : ℕ) : StepResult :=
  Adams_Steps bashforth16 moulton16 divisor16 f y0 x0 h hist tol iters

def Adams_16_Build_History (f : ℚ → ℚ → ℚ) (hist y : List ℚ) (x h : ℚ) :
    List ℚ :=
  Adams_Build_History 16 f hist y x h

/-! ### Order 20 (`adams_20_steps.c`) -/

def bashforth20 : List ℚ :=
  [691668239157222107697, -5292843584961252933125, 30349492858024727686755,
   -126346544855927856134295, 399537307669842150996468,
   -991168450545135070835076, 1971629028083798845750380,
   -3191065388846318679544380, 4241614331208149947151790,
   -4654326468801478894406214, 4222756879776354065593786,
   -3161821089800186539248210, 1943018818982002395655620,
   -970350191086531368649620, 387739787034699092364924,
   -121059601023985433003532, 28462032496476316665705,
   -4740335757093710713245, 498669220956647866875, -24919383499187492303]

def moulton20 : List ℚ :=
  [24919383499187492303, 193280569173472261637, -558160720115629395555,
   1941395668950986461335, -5612131802364455926260, 13187185898439270330756,
   -25293146116627869170796, 39878419226784442421820,
   -51970649453670274135470, 56154678684618739939910,
   -50320851025594566473146, 37297227252822858381906,
   -22726350407538133839300, 11268210124987992327060,
   -4474886658024166985340, 1389665263296211699212, -325187970422032795497,
   53935307402575440285, -5652892248087175675, 281550972898020815]

def divisor20 : ℚ := 1 / 102181884343418880000

def Adams_Bashforth_20_Steps (y h : ℚ) (hist : List ℚ) : ℚ :=
  Adams_Bashforth bashforth20 divisor20 y h hist

def Adams_Moulton_19_Steps (f : ℚ → ℚ → ℚ) (y0 y1 x h : ℚ) (hist : List ℚ)
    (tol : ℚ) (iters : ℕ) : AMResult :=
  Adams_Moulton moulton20 divisor20 f y0 y1 x h hist tol iters

def Adams_20_Steps (f : ℚ → ℚ → ℚ) (y0 x0 h : ℚ) (hist : List ℚ) (tol : ℚ)
    (iters : ℕ) : StepResult :=
  Adams_Steps bashforth20 moulton20 divisor20 f y0 x0 h hist tol iters

def Adams_20_Build_History (f : ℚ → ℚ → ℚ) (hist y : List ℚ) (x h : ℚ) :
    List ℚ :=
  Adams_Build_History 20 f hist y x h

/-! ### Helper lemmas -/

theorem sumdot_nil : sumdot [] = 0 := rfl

theorem foldl_addmul (l : List (ℚ × ℚ)) (a : ℚ) :
    l.foldl (fun acc p => acc + p.1 * p.2) a = a + sumdot l := by
  induction l generalizing a with
  | nil => exact (add_zero a).symm
  | cons p l ih =>
    simp only [List.foldl_cons]
    rw [ih]
    conv_rhs => simp only [sumdot, List.foldl_cons]
    rw [ih (0 + p.1 * p.2)]
    ring

theorem sumdot_cons (p : ℚ × ℚ) (l : List (ℚ × ℚ)) :
    sumdot (p :: l) = p.1 * p.2 + sumdot l := by
  simp only [sumdot, List.foldl_cons]
  rw [foldl_addmul]
  simp only [sumdot]
  ring

theorem sumdot_zip (w v : List ℚ) :
    sumdot (w.zip v) =
      ∑ j in Finset.range (min w.length v.length), w.getD j 0 * v.getD j 0 := by
  induction w generalizing v with
  | nil => simp [sumdot]
  | cons a w ih =>
    cases v with
    | nil => simp [sumdot]
    | cons b v =>
      rw [List.zip_cons_cons, sumdot_cons, ih]
      have hmin : min (a :: w).length (b :: v).length = min w.length v.length + 1 := by
        simp [Nat.succ_min_succ]
      rw [hmin, Finset.sum_range_succ']
      simp only [List.getD_cons_succ, List.getD_cons_zero]
      ring

theorem getD_reverse (l : List ℚ) (i : ℕ) (hi : i < l.length) :
    l.reverse.getD i 0 = l.getD (l.length - 1 - i) 0 := by
  have h1 : i < l.reverse.length := by simpa using hi
  have h2 : l.length - 1 - i < l.length := by omega
  rw [List.getD_eq_getElem l.reverse 0 h1, List.getD_eq_getElem l 0 h2,
    List.getElem_reverse]

theorem sumdot_zip_reverse (w hist : List ℚ) (h : hist.length = w.length) :
    sumdot (w.zip hist.reverse) =
      ∑ j in Finset.range w.length, w.getD j 0 * hist.getD (w.length - 1 - j) 0 := by
  rw [sumdot_zip]
  have hl : min w.length hist.reverse.length = w.length := by simp [h]
  rw [hl]
  refine Finset.sum_congr rfl fun j hj => ?_
  rw [Finset.mem_range] at hj
  rw [getD_reverse hist j (by omega), h]

theorem mouDelta_eq_sum (mou hist : List ℚ) (n : ℕ) (hn : mou.length = n)
    (hh : hist.length = n) (h1 : 1 ≤ n) :
    mouDelta mou hist =
      ∑ j in Finset.Icc 1 (n - 1), mou.getD j 0 * hist.getD (n - 1 - j) 0 := by
  have htl : (hist.take (mou.length - 1)).length = (mou.drop 1).length := by
    simp [hn, hh]
  rw [mouDelta, sumdot_zip_reverse _ _ htl]
  have hlen : (mou.drop 1).length = n - 1 := by simp [hn]
  rw [hlen]
  have : Finset.Icc 1 (n - 1) = Finset.Ico 1 n := by
    rw [← Nat.Ico_succ_right]
    congr 1
    omega
  rw [this, Finset.sum_Ico_eq_sum_range]
  refine Finset.sum_congr rfl fun j hj => ?_
  rw [Finset.mem_range] at hj
  have hd : (mou.drop 1).getD j 0 = mou.getD (1 + j) 0 := by
    rw [List.getD_eq_getElem _ 0 (by omega : j < (mou.drop 1).length),
      List.getElem_drop, List.getD_eq_getElem _ 0 (by omega : 1 + j < mou.length)]
  have ht : (hist.take (mou.length - 1)).getD (n - 1 - 1 - j) 0
      = hist.getD (n - 1 - (1 + j)) 0 := by
    have hb : n - 1 - 1 - j < (hist.take (mou.length - 1)).length := by
      rw [htl, hlen]; omega
    have hidx : n - 1 - 1 - j = n - 1 - (1 + j) := by omega
    rw [List.getD_eq_getElem _ 0 hb, List.getElem_take,
      ← List.getD_eq_getElem hist 0 (by omega : n - 1 - 1 - j < hist.length), hidx]
  rw [hd, ht]

theorem amLoop_exhaust (step : ℚ → ℚ) (tol : ℚ) (fuel done : ℕ) (y1 : ℚ)
    (hfail : ∀ j < fuel, hasConverged (step^[j] y1) (step^[j + 1] y1) tol = false) :
    amLoop step tol fuel done y1 = ⟨step^[fuel] y1, done + fuel + 1, done + fuel⟩ := by
  induction fuel generalizing done y1 with
  | zero => simp [amLoop]
  | succ fuel ih =>
    have h0 : hasConverged y1 (step y1) tol = false := by
      simpa using hfail 0 (Nat.succ_pos _)
    rw [amLoop]
    simp only [h0, Bool.false_eq_true, if_false]
    rw [ih (done + 1) (step y1) (fun j hj => by
      have := hfail (j + 1) (by omega)
      simpa [Function.iterate_succ_apply] using this)]
    have h1 : step^[fuel] (step y1) = step^[fuel + 1] y1 :=
      (Function.iterate_succ_apply step fuel y1).symm
    rw [h1]
    congr 1 <;> omega

theorem amLoop_break (step : ℚ → ℚ) (tol : ℚ) (fuel done m : ℕ) (y1 : ℚ)
    (hm : m < fuel)
    (hfail : ∀ j < m, hasConverged (step^[j] y1) (step^[j + 1] y1) tol = false)
    (hconv : hasConverged (step^[m] y1) (step^[m + 1] y1) tol = true) :
    amLoop step tol fuel done y1 =
      ⟨step^[m + 1] y1, done + m + 1, done + m + 1⟩ := by
  induction m generalizing fuel done y1 with
  | zero =>
    obtain ⟨f, rfl⟩ : ∃ f, fuel = f + 1 := ⟨fuel - 1, by omega⟩
    simp only [zero_add, Function.iterate_zero_apply, Function.iterate_one] at hconv
    rw [amLoop]
    simp [hconv]
  | succ m ih =>
    obtain ⟨f, rfl⟩ : ∃ f, fuel = f + 1 := ⟨fuel - 1, by omega⟩
    have h0 : hasConverged y1 (step y1) tol = false := by
      simpa using hfail 0 (Nat.succ_pos _)
    rw [amLoop]
    simp only [h0, Bool.false_eq_true, if_false]
    rw [ih f (done + 1) (step y1) (by omega)
      (fun j hj => by
        have := hfail (j + 1) (by omega)
        simpa [Function.iterate_succ_apply] using this)
      (by simpa [Function.iterate_succ_apply] using hconv)]
    have h1 : step^[m + 1] (step y1) = step^[m + 2] y1 :=
      (Function.iterate_succ_apply step (m + 1) y1).symm
    rw [h1]
    congr 1 <;> omega

theorem amLoop_correctorSpec (step : ℚ → ℚ) (tol : ℚ) (fuel done : ℕ) (y1 : ℚ) :
    (amLoop step tol fuel done y1).y1 = (correctorSpec step tol fuel y1).1 ∧
    (amLoop step tol fuel done y1).ret = done + (correctorSpec step tol fuel y1).2 := by
  induction fuel generalizing done y1 with
  | zero => simp [amLoop, correctorSpec]
  | succ fuel ih =>
    rw [amLoop, correctorSpec]
    by_cases hc : hasConverged y1 (step y1) tol
    · simp [hc]
    · simp only [hc, Bool.false_eq_true, if_false]
      obtain ⟨ih1, ih2⟩ := ih (done + 1) (step y1)
      refine ⟨ih1, ?_⟩
      rw [ih2]
      omega

theorem amLoop_evals_spec (step : ℚ → ℚ) (tol : ℚ) (fuel done : ℕ) (y1 : ℚ) :
    (amLoop step tol fuel done y1).evals
        = min (amLoop step tol fuel done y1).ret (done + fuel) ∧
    (amLoop step tol fuel done y1).ret ≤ done + fuel + 1 ∧
    done < (amLoop step tol fuel done y1).ret := by
  induction fuel generalizing done y1 with
  | zero => simp [amLoop]
  | succ fuel ih =>
    rw [amLoop]
    by_cases hc : hasConverged y1 (step y1) tol
    · simp [hc]
    · simp only [hc, Bool.false_eq_true, if_false]
      obtain ⟨ih1, ih2, ih3⟩ := ih (done + 1) (step y1)
      refine ⟨?_, by omega, by omega⟩
      rw [ih1]
      congr 1
      omega

theorem amLoop_ret_budget_iff (step : ℚ → ℚ) (tol : ℚ) (N : ℕ) (y1 : ℚ) :
    (amLoop step tol N 0 y1).ret = N + 1 ↔
      ∀ j < N, hasConverged (step^[j] y1) (step^[j + 1] y1) tol = false := by
  constructor
  · intro h
    by_contra hex
    push_neg at hex
    obtain ⟨j, hjN, hj⟩ := hex
    have hP : ∃ i, hasConverged (step^[i] y1) (step^[i + 1] y1) tol = true :=
      ⟨j, by simpa using hj⟩
    set m := Nat.find hP with hm
    have hmle : m ≤ j := Nat.find_le (by simpa using hj)
    have hfail : ∀ i < m, hasConverged (step^[i] y1) (step^[i + 1] y1) tol = false := by
      intro i hi
      have := Nat.find_min hP hi
      simpa using this
    have := amLoop_break step tol N 0 m y1 (by omega) hfail (Nat.find_spec hP)
    rw [this] at h
    simp at h
    omega
  · intro hf
    rw [amLoop_exhaust step tol N 0 y1 hf]
    simp

theorem length_shiftLeft (l : List ℚ) : (shiftLeft l).length = l.length := by
  simp [shiftLeft]

theorem ext_getD (l l' : List ℚ) (hlen : l.length = l'.length)
    (h : ∀ i, i < l.length → l.getD i 0 = l'.getD i 0) : l = l' := by
  refine List.ext_getElem hlen ?_
  intro i h1 h2
  have hi := h i h1
  rwa [List.getD_eq_getElem _ 0 h1, List.getD_eq_getElem _ 0 h2] at hi

theorem getD_shiftLeft (l : List ℚ) (i : ℕ) (hi : i < l.length) :
    (shiftLeft l).getD i 0 =
      if i + 1 < l.length then l.getD (i + 1) 0 else l.getD i 0 := by
  have h1 : i < (shiftLeft l).length := by
    rw [length_shiftLeft]
    exact hi
  rw [List.getD_eq_getElem _ 0 h1]
  simp only [shiftLeft, List.getElem_ofFn, List.get_eq_getElem]
  by_cases hc : i + 1 < l.length
  · rw [dif_pos hc, if_pos hc, List.getD_eq_getElem _ 0 hc]
  · rw [dif_neg hc, if_neg hc, List.getD_eq_getElem _ 0 hi]

theorem getD_append_pair (l : List ℚ) (a b : ℚ) :
    ((l ++ [a, b]).getD l.length 0 = a ∧
     (l ++ [a, b]).getD (l.length + 1) 0 = b) := by
  constructor
  · rw [List.getD_eq_getElem _ 0 (by simp),
      List.getElem_append_right (by omega)]
    simp
  · rw [List.getD_eq_getElem _ 0 (by simp),
      List.getElem_append_right (by omega)]
    simp

theorem Adams_Steps_eq (bash mou : List ℚ) (div : ℚ) (f : ℚ → ℚ → ℚ)
    (y0 x0 h : ℚ) (hist : List ℚ) (tol : ℚ) (N : ℕ) :
    Adams_Steps bash mou div f y0 x0 h hist tol N =
      ⟨(Adams_Moulton mou div f y0
          (Adams_Bashforth bash div y0 h (hist.set (bash.length - 1) (f x0 y0)))
          (x0 + h) h (shiftLeft (hist.set (bash.length - 1) (f x0 y0))) tol N).y1,
       Adams_Bashforth bash div y0 h (hist.set (bash.length - 1) (f x0 y0)),
       shiftLeft (hist.set (bash.length - 1) (f x0 y0)),
       (Adams_Moulton mou div f y0
          (Adams_Bashforth bash div y0 h (hist.set (bash.length - 1) (f x0 y0)))
          (x0 + h) h (shiftLeft (hist.set (bash.length - 1) (f x0 y0))) tol N).ret,
       (Adams_Moulton mou div f y0
          (Adams_Bashforth bash div y0 h (hist.set (bash.length - 1) (f x0 y0)))
          (x0 + h) h (shiftLeft (hist.set (bash.length - 1) (f x0 y0))) tol N).evals + 1⟩ :=
  rfl

theorem Adams_Steps_hist_eq (bash mou : List ℚ) (div : ℚ) (f : ℚ → ℚ → ℚ)
    (y0 x0 h : ℚ) (hist : List ℚ) (tol : ℚ) (N : ℕ) (k : ℕ)
    (hk : bash.length = k) (hh : hist.length = k) (h2 : 2 ≤ k) :
    (Adams_Steps bash mou div f y0 x0 h hist tol N).hist
      = (hist.drop 1).take (k - 2) ++ [f x0 y0, f x0 y0] := by
  subst hk
  rw [Adams_Steps_eq]
  show shiftLeft (hist.set (bash.length - 1) (f x0 y0)) = _
  have hs : (hist.set (bash.length - 1) (f x0 y0)).length = bash.length := by
    simp [hh]
  have htt : ((hist.drop 1).take (bash.length - 2)).length = bash.length - 2 := by
    simp [hh]
    omega
  have hset : ∀ j, j < bash.length →
      (hist.set (bash.length - 1) (f x0 y0)).getD j 0
        = if j = bash.length - 1 then f x0 y0 else hist.getD j 0 := by
    intro j hj
    by_cases hc : j = bash.length - 1
    · subst hc
      rw [if_pos rfl, List.getD_eq_getElem _ 0 (by rw [hs]; omega),
        List.getElem_set_self (by simp [hh]; omega)]
    · rw [if_neg hc, List.getD_eq_getElem _ 0 (by rw [hs]; omega),
        List.getElem_set_ne (by omega), ← List.getD_eq_getElem hist 0 (by omega)]
  have hpair := getD_append_pair ((hist.drop 1).take (bash.length - 2))
    (f x0 y0) (f x0 y0)
  rw [htt] at hpair
  refine ext_getD _ _ ?_ ?_
  · rw [length_shiftLeft, hs]
    simp [hh]
    omega
  · intro i hi
    rw [length_shiftLeft, hs] at hi
    rw [getD_shiftLeft _ i (by rw [hs]; exact hi)]
    rw [hs]
    by_cases hc : i + 1 < bash.length
    · rw [if_pos hc, hset (i + 1) hc]
      by_cases hc2 : i + 1 = bash.length - 1
      · rw [if_pos hc2]
        have hie : i = bash.length - 2 := by omega
        rw [hie]
        exact hpair.1.symm
      · rw [if_neg hc2]
        rw [List.getD_append ((hist.drop 1).take (bash.length - 2))
          [f x0 y0, f x0 y0] 0 i (by rw [htt]; omega)]
        have hb : i < ((hist.drop 1).take (bash.length - 2)).length := by
          rw [htt]
          omega
        have hstep : ((hist.drop 1).take (bash.length - 2)).getD i 0
            = hist.getD (i + 1) 0 := by
          rw [show i + 1 = 1 + i from by omega]
          rw [List.getD_eq_getElem _ 0 hb, List.getElem_take, List.getElem_drop,
            ← List.getD_eq_getElem hist 0 (by omega)]
        rw [hstep]
    · rw [if_neg hc, hset i (by omega), if_pos (by omega)]
      have hie : i = bash.length - 2 + 1 := by omega
      rw [hie]
      exact hpair.2.symm

theorem take_set_last_eq (l l' : List ℚ) (v : ℚ) (k : ℕ) (hl : l.length = k)
    (hl' : l'.length = k) (ht : l.take (k - 1) = l'.take (k - 1)) (hk : 1 ≤ k) :
    l.set (k - 1) v = l'.set (k - 1) v := by
  refine List.ext_getElem (by simp [hl, hl']) ?_
  intro i h1 h2
  simp only [List.length_set, hl] at h1
  by_cases hc : i = k - 1
  · subst hc
    rw [List.getElem_set_self (by simp [hl]; omega),
      List.getElem_set_self (by simp [hl']; omega)]
  · rw [List.getElem_set_ne (by omega), List.getElem_set_ne (by omega)]
    have hti : i < k - 1 := by omega
    have hthis := congrArg (fun t : List ℚ => t.getD i 0) ht
    simp only at hthis
    have h3 : i < (l.take (k - 1)).length := by simp [hl]; omega
    have h4 : i < (l'.take (k - 1)).length := by simp [hl']; omega
    rw [List.getD_eq_getElem _ 0 h3, List.getD_eq_getElem _ 0 h4,
      List.getElem_take, List.getElem_take] at hthis
    exact hthis

theorem Adams_Moulton_congr (mou : List ℚ) (div : ℚ) (f : ℚ → ℚ → ℚ)
    (y0 y1 x h : ℚ) (hist hist' : List ℚ) (tol : ℚ) (N : ℕ)
    (ht : hist.take (mou.length - 1) = hist'.take (mou.length - 1)) :
    Adams_Moulton mou div f y0 y1 x h hist tol N =
      Adams_Moulton mou div f y0 y1 x h hist' tol N := by
  unfold Adams_Moulton amStep mouDelta
  rw [ht]

theorem Adams_Steps_congr (bash mou : List ℚ) (div : ℚ) (f : ℚ → ℚ → ℚ)
    (y0 x0 h : ℚ) (hist hist' : List ℚ) (tol : ℚ) (N : ℕ) (k : ℕ)
    (hk : bash.length = k) (hh : hist.length = k) (hh' : hist'.length = k)
    (ht : hist.take (k - 1) = hist'.take (k - 1)) (h1 : 1 ≤ k) :
    Adams_Steps bash mou div f y0 x0 h hist tol N =
      Adams_Steps bash mou div f y0 x0 h hist' tol N := by
  have hset : hist.set (bash.length - 1) (f x0 y0)
      = hist'.set (bash.length - 1) (f x0 y0) := by
    rw [hk]
    exact take_set_last_eq hist hist' (f x0 y0) k hh hh' ht h1
  rw [Adams_Steps_eq, Adams_Steps_eq, hset]

theorem sumdot_zip_replicate (w : List ℚ) (n : ℕ) (c : ℚ) (hn : w.length = n) :
    sumdot (w.zip (List.replicate n c)) = w.sum * c := by
  induction w generalizing n with
  | nil => simp [sumdot]
  | cons a w ih =>
    obtain ⟨m, rfl⟩ : ∃ m, n = m + 1 :=
      ⟨w.length, by simp only [List.length_cons] at hn; omega⟩
    rw [List.replicate_succ, List.zip_cons_cons, sumdot_cons, ih m (by simpa using hn)]
    simp [add_mul]

/-- C3: `hasConverged(y0, y1, ε)` returns true iff `|y0 - y1| < B` with
`B = |y1| * ε` when `min(|y0|, |y1|) > 1` and `B = ε` otherwise; the code's
conjunction `|y0| > 1 && |y1| > 1` coincides with `min(|y0|, |y1|) > 1`,
and the comparison is strict. -/
theorem hasConverged_characterization :
    ∀ y0 y1 epsilon : ℚ,
      (hasConverged y0 y1 epsilon = true ↔
        |y0 - y1| < (if min |y0| |y1| > 1 then |y1| * epsilon else epsilon))
      ∧ ((|y0| > 1 ∧ |y1| > 1) ↔ min |y0| |y1| > 1) := by
  intro y0 y1 eps
  have hmin : (|y0| > 1 ∧ |y1| > 1) ↔ min |y0| |y1| > 1 := lt_min_iff.symm
  refine ⟨?_, hmin⟩
  by_cases hb : |y0| > 1 ∧ |y1| > 1
  · rw [if_pos (hmin.mp hb)]
    simp only [hasConverged, if_pos hb]
    rw [mul_comm eps |y1|]
    constructor
    · intro h
      by_contra hcon
      simp [hcon] at h
    · intro h
      simp [h]
  · rw [if_neg (fun hm => hb (hmin.mpr hm))]
    simp only [hasConverged, if_neg hb]
    constructor
    · intro h
      by_contra hcon
      simp [hcon] at h
    · intro h
      simp [h]

/-- C7: with an iteration budget of 0, each corrector returns 1 for every
derivative function, state, abscissa, step size, history buffer and
tolerance. -/
theorem corrector_zero_budget_returns_one :
    ∀ (f : ℚ → ℚ → ℚ) (y0 y1 x h tol : ℚ) (hist : List ℚ),
      (Adams_Moulton_11_Steps f y0 y1 x h hist tol 0).ret = 1 ∧
      (Adams_Moulton_15_Steps f y0 y1 x h hist tol 0).ret = 1 ∧
      (Adams_Moulton_19_Steps f y0 y1 x h hist tol 0).ret = 1 := by
  intro f y0 y1 x h tol hist
  exact ⟨rfl, rfl, rfl⟩

/-- C6: each predictor returns
`y + h * divisor * Σ_{j=0}^{k-1} bashforth[j] * f_history[k-1-j]`
(weight `bashforth[0]` paired with the most recent history sample). -/
theorem bashforth_predictor_formula :
    ∀ (y h : ℚ) (hist12 hist16 hist20 : List ℚ),
      hist12.length = 12 → hist16.length = 16 → hist20.length = 20 →
      (Adams_Bashforth_12_Steps y h hist12 =
        y + h * divisor12 *
          ∑ j in Finset.range 12, bashforth12.getD j 0 * hist12.getD (11 - j) 0) ∧
      (Adams_Bashforth_16_Steps y h hist16 =
        y + h * divisor16 *
          ∑ j in Finset.range 16, bashforth16.getD j 0 * hist16.getD (15 - j) 0) ∧
      (Adams_Bashforth_20_Steps y h hist20 =
        y + h * divisor20 *
          ∑ j in Finset.range 20, bashforth20.getD j 0 * hist20.getD (19 - j) 0) := by
  intro y h hist12 hist16 hist20 h12 h16 h20
  refine ⟨?_, ?_, ?_⟩
  · rw [Adams_Bashforth_12_Steps, Adams_Bashforth,
      sumdot_zip_reverse bashforth12 hist12 (by rw [h12]; rfl)]
    rfl
  · rw [Adams_Bashforth_16_Steps, Adams_Bashforth,
      sumdot_zip_reverse bashforth16 hist16 (by rw [h16]; rfl)]
    rfl
  · rw [Adams_Bashforth_20_Steps, Adams_Bashforth,
      sumdot_zip_reverse bashforth20 hist20 (by rw [h20]; rfl)]
    rfl

theorem bashforth_predictor_formula_witness :
    (Adams_Bashforth_12_Steps 0 0 (List.replicate 12 0) =
      0 + 0 * divisor12 *
        ∑ j in Finset.range 12,
          bashforth12.getD j 0 * (List.replicate 12 (0:ℚ)).getD (11 - j) 0) ∧
    (Adams_Bashforth_16_Steps 0 0 (List.replicate 16 0) =
      0 + 0 * divisor16 *
        ∑ j in Finset.range 16,
          bashforth16.getD j 0 * (List.replicate 16 (0:ℚ)).getD (15 - j) 0) ∧
    (Adams_Bashforth_20_Steps 0 0 (List.replicate 20 0) =
      0 + 0 * divisor20 *
        ∑ j in Finset.range 20,
          bashforth20.getD j 0 * (List.replicate 20 (0:ℚ)).getD (19 - j) 0) :=
  bashforth_predictor_formula 0 0 _ _ _ rfl rfl rfl

/-- C8: for each order the coefficient tables satisfy the exact identity
`divisor * Σ bashforth = 1`; consequently, with a history pre-filled with
the constant `c`, the predictor returns exactly `y + h * c`, and in
particular the residual at `h = 1/10`, `y = 1`, `c = 2` is below `1e-9`. -/
theorem bashforth_sum_identity :
    (divisor12 * bashforth12.sum = 1 ∧ divisor16 * bashforth16.sum = 1 ∧
      divisor20 * bashforth20.sum = 1) ∧
    (∀ y h c : ℚ,
      Adams_Bashforth_12_Steps y h (List.replicate 12 c) = y + h * c ∧
      Adams_Bashforth_16_Steps y h (List.replicate 16 c) = y + h * c ∧
      Adams_Bashforth_20_Steps y h (List.replicate 20 c) = y + h * c) ∧
    |Adams_Bashforth_12_Steps 1 (1/10) (List.replicate 12 2) - (1 + (1/10) * 2)|
        < 1/1000000000 ∧
    |Adams_Bashforth_16_Steps 1 (1/10) (List.replicate 16 2) - (1 + (1/10) * 2)|
        < 1/1000000000 ∧
    |Adams_Bashforth_20_Steps 1 (1/10) (List.replicate 20 2) - (1 + (1/10) * 2)|
        < 1/1000000000 := by
  have hid12 : divisor12 * bashforth12.sum = 1 := by
    norm_num [divisor12, bashforth12]
  have hid16 : divisor16 * bashforth16.sum = 1 := by
    norm_num [divisor16, bashforth16]
  have hid20 : divisor20 * bashforth20.sum = 1 := by
    norm_num [divisor20, bashforth20]
  have key : ∀ (bash : List ℚ) (div : ℚ) (y h c : ℚ),
      div * bash.sum = 1 →
      Adams_Bashforth bash div y h (List.replicate bash.length c) = y + h * c := by
    intro bash div y h c hdiv
    rw [Adams_Bashforth, List.reverse_replicate,
      sumdot_zip_replicate bash bash.length c rfl]
    have : h * div * (bash.sum * c) = h * (div * bash.sum) * c := by ring
    rw [this, hdiv]
    ring
  have kgen : ∀ y h c : ℚ,
      Adams_Bashforth_12_Steps y h (List.replicate 12 c) = y + h * c ∧
      Adams_Bashforth_16_Steps y h (List.replicate 16 c) = y + h * c ∧
      Adams_Bashforth_20_Steps y h (List.replicate 20 c) = y + h * c := by
    intro y h c
    exact ⟨key bashforth12 divisor12 y h c hid12,
      key bashforth16 divisor16 y h c hid16,
      key bashforth20 divisor20 y h c hid20⟩
  refine ⟨⟨hid12, hid16, hid20⟩, kgen, ?_, ?_, ?_⟩
  · rw [(kgen 1 (1/10) 2).1]
    norm_num
  · rw [(kgen 1 (1/10) 2).2.1]
    norm_num
  · rw [(kgen 1 (1/10) 2).2.2]
    norm_num

/-- C1 (amended): after one Step Driver call the new history buffer is the
old buffer with index 0 dropped and entries shifted down, except that the
freshly evaluated `f(x0, y[0])` occupies BOTH of the last two slots:
`new[i] = H[i+1]` holds for `i = 0..k-3` only, and
`new[k-2] = new[k-1] = f(x0, y[0])` (the fresh value is written into slot
`k-1` before the shift, so the shift duplicates it into slot `k-2`). -/
theorem step_driver_history_shift :
    ∀ (f : ℚ → ℚ → ℚ) (y0 x0 h tol : ℚ) (N : ℕ)
      (hist12 hist16 hist20 : List ℚ),
      hist12.length = 12 → hist16.length = 16 → hist20.length = 20 →
      ((Adams_12_Steps f y0 x0 h hist12 tol N).hist
          = (hist12.drop 1).take 10 ++ [f x0 y0, f x0 y0]) ∧
      ((Adams_16_Steps f y0 x0 h hist16 tol N).hist
          = (hist16.drop 1).take 14 ++ [f x0 y0, f x0 y0]) ∧
      ((Adams_20_Steps f y0 x0 h hist20 tol N).hist
          = (hist20.drop 1).take 18 ++ [f x0 y0, f x0 y0]) := by
  intro f y0 x0 h tol N hist12 hist16 hist20 h12 h16 h20
  exact ⟨Adams_Steps_hist_eq _ _ _ f y0 x0 h _ tol N 12 rfl h12 (by omega),
    Adams_Steps_hist_eq _ _ _ f y0 x0 h _ tol N 16 rfl h16 (by omega),
    Adams_Steps_hist_eq _ _ _ f y0 x0 h _ tol N 20 rfl h20 (by omega)⟩

theorem step_driver_history_shift_witness :
    ((Adams_12_Steps (fun _ _ => 0) 0 0 0 (List.replicate 12 1) 0 0).hist
        = ((List.replicate 12 (1:ℚ)).drop 1).take 10 ++ [0, 0]) ∧
    ((Adams_16_Steps (fun _ _ => 0) 0 0 0 (List.replicate 16 1) 0 0).hist
        = ((List.replicate 16 (1:ℚ)).drop 1).take 14 ++ [0, 0]) ∧
    ((Adams_20_Steps (fun _ _ => 0) 0 0 0 (List.replicate 20 1) 0 0).hist
        = ((List.replicate 20 (1:ℚ)).drop 1).take 18 ++ [0, 0]) :=
  step_driver_history_shift (fun _ _ => 0) 0 0 0 0 0 _ _ _ rfl rfl rfl

/-- C1 as literally stated is false: with input history `[1,…,12]` and
`f ≡ 0` the driver leaves `f(x0,y[0]) = 0` in slot 10, not the old entry
`H[11] = 12` that the claimed formula `new[i] = H[i+1]` for `i = 0..k-2`
would require. -/
theorem step_driver_history_shift_cex :
    ¬ ((Adams_12_Steps (fun _ _ => 0) 0 0 0
          [1, 2, 3, 4, 5, 6, 7, 8, 9, 10, 11, 12] 0 0).hist.getD 10 0
        = ([1, 2, 3, 4, 5, 6, 7, 8, 9, 10, 11, 12] : List ℚ).getD 11 0) := by
  decide

theorem Adams_Build_History_eq (steps : ℕ) (f : ℚ → ℚ → ℚ) (hist y : List ℚ)
    (x h : ℚ) (hh : hist.length = steps) :
    Adams_Build_History steps f hist y x h
      = ((List.range (steps - 1)).map fun i : ℕ => f (x + (i : ℚ) * h) (y.getD i 0))
          ++ hist.drop (steps - 1) := by
  refine List.ext_getElem ?_ ?_
  · simp [Adams_Build_History, hh]
  · intro i hL hR
    have hL' : i < hist.length := by
      simpa [Adams_Build_History] using hL
    simp only [Adams_Build_History]
    rw [List.getElem_ofFn]
    simp only [List.get_eq_getElem]
    by_cases hc : i < steps - 1
    · rw [if_pos hc, List.getElem_append_left (by simpa using hc)]
      simp only [List.getElem_map, List.getElem_range]
    · rw [if_neg hc, List.getElem_append_right (by simpa using hc)]
      simp only [List.length_map, List.length_range, List.getElem_drop]
      congr 1
      omega

/-- C2 (amended): the History Builder evaluates `f` at the first `k-1`
given points only, setting `f_history[i] = f(x + i*h, y[i])` for
`i = 0..k-2`; slot `k-1` of the buffer is left untouched (it is the Step
Driver's scratch slot, overwritten before first use). -/
theorem build_history_populates :
    ∀ (f : ℚ → ℚ → ℚ) (x h : ℚ) (y hist12 hist16 hist20 : List ℚ),
      hist12.length = 12 → hist16.length = 16 → hist20.length = 20 →
      (Adams_12_Build_History f hist12 y x h
          = ((List.range 11).map fun i : ℕ => f (x + (i : ℚ) * h) (y.getD i 0))
              ++ hist12.drop 11) ∧
      (Adams_16_Build_History f hist16 y x h
          = ((List.range 15).map fun i : ℕ => f (x + (i : ℚ) * h) (y.getD i 0))
              ++ hist16.drop 15) ∧
      (Adams_20_Build_History f hist20 y x h
          = ((List.range 19).map fun i : ℕ => f (x + (i : ℚ) * h) (y.getD i 0))
              ++ hist20.drop 19) := by
  intro f x h y hist12 hist16 hist20 h12 h16 h20
  exact ⟨Adams_Build_History_eq 12 f _ y x h h12,
    Adams_Build_History_eq 16 f _ y x h h16,
    Adams_Build_History_eq 20 f _ y x h h20⟩

theorem build_history_populates_witness :
    (Adams_12_Build_History (fun _ _ => 1) (List.replicate 12 0)
        (List.replicate 12 0) 0 0
      = ((List.range 11).map fun i : ℕ =>
          (fun _ _ => (1:ℚ)) ((0:ℚ) + (i : ℚ) * 0) ((List.replicate 12 (0:ℚ)).getD i 0))
        ++ (List.replicate 12 (0:ℚ)).drop 11) ∧
    (Adams_16_Build_History (fun _ _ => 1) (List.replicate 16 0)
        (List.replicate 16 0) 0 0
      = ((List.range 15).map fun i : ℕ =>
          (fun _ _ => (1:ℚ)) ((0:ℚ) + (i : ℚ) * 0) ((List.replicate 16 (0:ℚ)).getD i 0))
        ++ (List.replicate 16 (0:ℚ)).drop 15) ∧
    (Adams_20_Build_History (fun _ _ => 1) (List.replicate 20 0)
        (List.replicate 20 0) 0 0
      = ((List.range 19).map fun i : ℕ =>
          (fun _ _ => (1:ℚ)) ((0:ℚ) + (i : ℚ) * 0) ((List.replicate 20 (0:ℚ)).getD i 0))
        ++ (List.replicate 20 (0:ℚ)).drop 19) :=
  build_history_populates (fun _ _ => 1) 0 0 _ _ _ _ rfl rfl rfl

/-- C2 as literally stated is false: the builder does not evaluate `f` at
the last given point.  With `f ≡ 1` and an all-zero initial buffer, slot
`k-1 = 11` still holds `0` after the call, not `f(x + 11h, y[11]) = 1`. -/
theorem build_history_populates_cex :
    ¬ ((Adams_12_Build_History (fun _ _ => 1) (List.replicate 12 0)
          (List.replicate 12 0) 0 0).getD 11 0 = 1) := by
  decide

/-- C10: after any Step Driver call the last two history entries both hold
the freshly evaluated `f(x0, y[0])`; slot `k-1` is scratch between steps:
the corrector's result depends only on slots `0..k-2`, and the Step Driver
is insensitive to the incoming value of slot `k-1` (it overwrites it
before any read). -/
theorem history_scratch_slot_invariant :
    ∀ (f : ℚ → ℚ → ℚ) (y0 y1 x0 x h tol : ℚ) (N : ℕ)
      (hist12 hist12' hist16 hist16' hist20 hist20' : List ℚ),
      hist12.length = 12 → hist12'.length = 12 →
      hist12.take 11 = hist12'.take 11 →
      hist16.length = 16 → hist16'.length = 16 →
      hist16.take 15 = hist16'.take 15 →
      hist20.length = 20 → hist20'.length = 20 →
      hist20.take 19 = hist20'.take 19 →
      ((Adams_12_Steps f y0 x0 h hist12 tol N).hist.getD 11 0 = f x0 y0 ∧
       (Adams_12_Steps f y0 x0 h hist12 tol N).hist.getD 10 0 = f x0 y0 ∧
       Adams_12_Steps f y0 x0 h hist12 tol N
          = Adams_12_Steps f y0 x0 h hist12' tol N ∧
       Adams_Moulton_11_Steps f y0 y1 x h hist12 tol N
          = Adams_Moulton_11_Steps f y0 y1 x h hist12' tol N) ∧
      ((Adams_16_Steps f y0 x0 h hist16 tol N).hist.getD 15 0 = f x0 y0 ∧
       (Adams_16_Steps f y0 x0 h hist16 tol N).hist.getD 14 0 = f x0 y0 ∧
       Adams_16_Steps f y0 x0 h hist16 tol N
          = Adams_16_Steps f y0 x0 h hist16' tol N ∧
       Adams_Moulton_15_Steps f y0 y1 x h hist16 tol N
          = Adams_Moulton_15_Steps f y0 y1 x h hist16' tol N) ∧
      ((Adams_20_Steps f y0 x0 h hist20 tol N).hist.getD 19 0 = f x0 y0 ∧
       (Adams_20_Steps f y0 x0 h hist20 tol N).hist.getD 18 0 = f x0 y0 ∧
       Adams_20_Steps f y0 x0 h hist20 tol N
          = Adams_20_Steps f y0 x0 h hist20' tol N ∧
       Adams_Moulton_19_Steps f y0 y1 x h hist20 tol N
          = Adams_Moulton_19_Steps f y0 y1 x h hist20' tol N) := by
  intro f y0 y1 x0 x h tol N hist12 hist12' hist16 hist16' hist20 hist20'
  intro hl12 hl12' ht12 hl16 hl16' ht16 hl20 hl20' ht20
  have last2 : ∀ (bash mou : List ℚ) (div : ℚ) (hist : List ℚ) (k : ℕ)
      (hk : bash.length = k) (hh : hist.length = k) (h2 : 2 ≤ k),
      (Adams_Steps bash mou div f y0 x0 h hist tol N).hist.getD (k - 1) 0 = f x0 y0 ∧
      (Adams_Steps bash mou div f y0 x0 h hist tol N).hist.getD (k - 2) 0 = f x0 y0 := by
    intro bash mou div hist k hk hh h2
    rw [Adams_Steps_hist_eq bash mou div f y0 x0 h hist tol N k hk hh h2]
    have hlen : ((hist.drop 1).take (k - 2)).length = k - 2 := by
      simp [hh]
      omega
    have p := getD_append_pair ((hist.drop 1).take (k - 2)) (f x0 y0) (f x0 y0)
    rw [hlen] at p
    exact ⟨by rw [show k - 1 = k - 2 + 1 by omega]; exact p.2, p.1⟩
  refine ⟨⟨(last2 bashforth12 moulton12 divisor12 hist12 12 rfl hl12 (by omega)).1,
           (last2 bashforth12 moulton12 divisor12 hist12 12 rfl hl12 (by omega)).2,
           Adams_Steps_congr _ _ _ f y0 x0 h _ _ tol N 12 rfl hl12 hl12' ht12 (by omega),
           Adams_Moulton_congr _ _ f y0 y1 x h _ _ tol N ht12⟩,
          ⟨(last2 bashforth16 moulton16 divisor16 hist16 16 rfl hl16 (by omega)).1,
           (last2 bashforth16 moulton16 divisor16 hist16 16 rfl hl16 (by omega)).2,
           Adams_Steps_congr _ _ _ f y0 x0 h _ _ tol N 16 rfl hl16 hl16' ht16 (by omega),
           Adams_Moulton_congr _ _ f y0 y1 x h _ _ tol N ht16⟩,
          ⟨(last2 bashforth20 moulton20 divisor20 hist20 20 rfl hl20 (by omega)).1,
           (last2 bashforth20 moulton20 divisor20 hist20 20 rfl hl20 (by omega)).2,
           Adams_Steps_congr _ _ _ f y0 x0 h _ _ tol N 20 rfl hl20 hl20' ht20 (by omega),
           Adams_Moulton_congr _ _ f y0 y1 x h _ _ tol N ht20⟩⟩

theorem history_scratch_slot_invariant_witness :
    (((Adams_12_Steps (fun _ _ => 3) 0 0 0 (List.replicate 12 0) 0 0).hist.getD 11 0
        = (fun _ _ => (3:ℚ)) 0 0 ∧
      (Adams_12_Steps (fun _ _ => 3) 0 0 0 (List.replicate 12 0) 0 0).hist.getD 10 0
        = (fun _ _ => (3:ℚ)) 0 0 ∧
      Adams_12_Steps (fun _ _ => 3) 0 0 0 (List.replicate 12 0) 0 0
        = Adams_12_Steps (fun _ _ => 3) 0 0 0 (List.replicate 11 0 ++ [5]) 0 0 ∧
      Adams_Moulton_11_Steps (fun _ _ => 3) 0 0 0 0 (List.replicate 12 0) 0 0
        = Adams_Moulton_11_Steps (fun _ _ => 3) 0 0 0 0 (List.replicate 11 0 ++ [5]) 0 0) ∧
     ((Adams_16_Steps (fun _ _ => 3) 0 0 0 (List.replicate 16 0) 0 0).hist.getD 15 0
        = (fun _ _ => (3:ℚ)) 0 0 ∧
      (Adams_16_Steps (fun _ _ => 3) 0 0 0 (List.replicate 16 0) 0 0).hist.getD 14 0
        = (fun _ _ => (3:ℚ)) 0 0 ∧
      Adams_16_Steps (fun _ _ => 3) 0 0 0 (List.replicate 16 0) 0 0
        = Adams_16_Steps (fun _ _ => 3) 0 0 0 (List.replicate 15 0 ++ [5]) 0 0 ∧
      Adams_Moulton_15_Steps (fun _ _ => 3) 0 0 0 0 (List.replicate 16 0) 0 0
        = Adams_Moulton_15_Steps (fun _ _ => 3) 0 0 0 0 (List.replicate 15 0 ++ [5]) 0 0) ∧
     ((Adams_20_Steps (fun _ _ => 3) 0 0 0 (List.replicate 20 0) 0 0).hist.getD 19 0
        = (fun _ _ => (3:ℚ)) 0 0 ∧
      (Adams_20_Steps (fun _ _ => 3) 0 0 0 (List.replicate 20 0) 0 0).hist.getD 18 0
        = (fun _ _ => (3:ℚ)) 0 0 ∧
      Adams_20_Steps (fun _ _ => 3) 0 0 0 (List.replicate 20 0) 0 0
        = Adams_20_Steps (fun _ _ => 3) 0 0 0 (List.replicate 19 0 ++ [5]) 0 0 ∧
      Adams_Moulton_19_Steps (fun _ _ => 3) 0 0 0 0 (List.replicate 20 0) 0 0
        = Adams_Moulton_19_Steps (fun _ _ => 3) 0 0 0 0 (List.replicate 19 0 ++ [5]) 0 0)) :=
  history_scratch_slot_invariant (fun _ _ => 3) 0 0 0 0 0 0 0 _ _ _ _ _ _
    rfl rfl (by decide) rfl rfl (by decide) rfl rfl (by decide)

/-- C9: the corrector evaluates the user derivative at most `N` times
(`evals = min ret N`, exactly once per loop iteration performed, and none
when the budget is 0), so one Step Driver call evaluates it at most
`1 + N` times. -/
theorem derivative_eval_budget :
    ∀ (f : ℚ → ℚ → ℚ) (y0 y1 x0 x h tol : ℚ) (N : ℕ) (hist : List ℚ),
      ((Adams_Moulton_11_Steps f y0 y1 x h hist tol N).evals ≤ N ∧
       (Adams_Moulton_11_Steps f y0 y1 x h hist tol N).evals
          = min (Adams_Moulton_11_Steps f y0 y1 x h hist tol N).ret N ∧
       (Adams_Moulton_11_Steps f y0 y1 x h hist tol 0).evals = 0 ∧
       (Adams_12_Steps f y0 x0 h hist tol N).evals ≤ 1 + N) ∧
      ((Adams_Moulton_15_Steps f y0 y1 x h hist tol N).evals ≤ N ∧
       (Adams_Moulton_15_Steps f y0 y1 x h hist tol N).evals
          = min (Adams_Moulton_15_Steps f y0 y1 x h hist tol N).ret N ∧
       (Adams_Moulton_15_Steps f y0 y1 x h hist tol 0).evals = 0 ∧
       (Adams_16_Steps f y0 x0 h hist tol N).evals ≤ 1 + N) ∧
      ((Adams_Moulton_19_Steps f y0 y1 x h hist tol N).evals ≤ N ∧
       (Adams_Moulton_19_Steps f y0 y1 x h hist tol N).evals
          = min (Adams_Moulton_19_Steps f y0 y1 x h hist tol N).ret N ∧
       (Adams_Moulton_19_Steps f y0 y1 x h hist tol 0).evals = 0 ∧
       (Adams_20_Steps f y0 x0 h hist tol N).evals ≤ 1 + N) := by
  intro f y0 y1 x0 x h tol N hist
  have mcore : ∀ (mou : List ℚ) (div x' : ℚ) (hist' : List ℚ) (y1' : ℚ),
      (Adams_Moulton mou div f y0 y1' x' h hist' tol N).evals ≤ N ∧
      (Adams_Moulton mou div f y0 y1' x' h hist' tol N).evals
        = min (Adams_Moulton mou div f y0 y1' x' h hist' tol N).ret N := by
    intro mou div x' hist' y1'
    obtain ⟨e1, e2, e3⟩ :=
      amLoop_evals_spec (amStep mou div f y0 x' h hist') tol N 0 y1'
    constructor
    · show (amLoop (amStep mou div f y0 x' h hist') tol N 0 y1').evals ≤ N
      omega
    · show (amLoop (amStep mou div f y0 x' h hist') tol N 0 y1').evals = _
      rw [e1]
      congr 1
      omega
  have mdrv : ∀ (bash mou : List ℚ) (div : ℚ),
      (Adams_Steps bash mou div f y0 x0 h hist tol N).evals ≤ 1 + N := by
    intro bash mou div
    rw [Adams_Steps_eq]
    have := (mcore mou div (x0 + h)
      (shiftLeft (hist.set (bash.length - 1) (f x0 y0)))
      (Adams_Bashforth bash div y0 h (hist.set (bash.length - 1) (f x0 y0)))).1
    show (Adams_Moulton mou div f y0 _ (x0 + h) h _ tol N).evals + 1 ≤ 1 + N
    omega
  exact ⟨⟨(mcore moulton12 divisor12 x hist y1).1, (mcore moulton12 divisor12 x hist y1).2,
      rfl, mdrv bashforth12 moulton12 divisor12⟩,
    ⟨(mcore moulton16 divisor16 x hist y1).1, (mcore moulton16 divisor16 x hist y1).2,
      rfl, mdrv bashforth16 moulton16 divisor16⟩,
    ⟨(mcore moulton20 divisor20 x hist y1).1, (mcore moulton20 divisor20 x hist y1).2,
      rfl, mdrv bashforth20 moulton20 divisor20⟩⟩

/-- C4: the corrector computes `delta` once as
`Σ_{j=1}^{k-1} moulton[j] * f_history[k-1-j]` (newest retained sample
paired with `moulton[1]`), and its result (final `y[1]` and returned
count) equals the reference loop `correctorSpec` whose fixed iteration
body is `y[1] ↦ y[0] + h * divisor * (moulton[0] * f(x, y[1]) + delta)`
with that same `delta`, stopping at the first convergence. -/
theorem corrector_delta_and_iteration :
    ∀ (f : ℚ → ℚ → ℚ) (y0 y1 x h tol : ℚ) (N : ℕ)
      (hist12 hist16 hist20 : List ℚ),
      hist12.length = 12 → hist16.length = 16 → hist20.length = 20 →
      ((mouDelta moulton12 hist12
          = ∑ j in Finset.Icc 1 11, moulton12.getD j 0 * hist12.getD (11 - j) 0) ∧
       ((Adams_Moulton_11_Steps f y0 y1 x h hist12 tol N).y1,
        (Adams_Moulton_11_Steps f y0 y1 x h hist12 tol N).ret)
          = correctorSpec (fun yc => y0 + h * divisor12 *
              (moulton12.getD 0 0 * f x yc +
                ∑ j in Finset.Icc 1 11,
                  moulton12.getD j 0 * hist12.getD (11 - j) 0)) tol N y1) ∧
      ((mouDelta moulton16 hist16
          = ∑ j in Finset.Icc 1 15, moulton16.getD j 0 * hist16.getD (15 - j) 0) ∧
       ((Adams_Moulton_15_Steps f y0 y1 x h hist16 tol N).y1,
        (Adams_Moulton_15_Steps f y0 y1 x h hist16 tol N).ret)
          = correctorSpec (fun yc => y0 + h * divisor16 *
              (moulton16.getD 0 0 * f x yc +
                ∑ j in Finset.Icc 1 15,
                  moulton16.getD j 0 * hist16.getD (15 - j) 0)) tol N y1) ∧
      ((mouDelta moulton20 hist20
          = ∑ j in Finset.Icc 1 19, moulton20.getD j 0 * hist20.getD (19 - j) 0) ∧
       ((Adams_Moulton_19_Steps f y0 y1 x h hist20 tol N).y1,
        (Adams_Moulton_19_Steps f y0 y1 x h hist20 tol N).ret)
          = correctorSpec (fun yc => y0 + h * divisor20 *
              (moulton20.getD 0 0 * f x yc +
                ∑ j in Finset.Icc 1 19,
                  moulton20.getD j 0 * hist20.getD (19 - j) 0)) tol N y1) := by
  intro f y0 y1 x h tol N hist12 hist16 hist20 h12 h16 h20
  have main : ∀ (mou : List ℚ) (div : ℚ) (hist : List ℚ),
      ((Adams_Moulton mou div f y0 y1 x h hist tol N).y1,
       (Adams_Moulton mou div f y0 y1 x h hist tol N).ret)
        = correctorSpec (amStep mou div f y0 x h hist) tol N y1 := by
    intro mou div hist
    obtain ⟨e1, e2⟩ :=
      amLoop_correctorSpec (amStep mou div f y0 x h hist) tol N 0 y1
    have e2' : (Adams_Moulton mou div f y0 y1 x h hist tol N).ret
        = (correctorSpec (amStep mou div f y0 x h hist) tol N y1).2 := by
      show (amLoop (amStep mou div f y0 x h hist) tol N 0 y1).ret = _
      omega
    exact Prod.ext e1 e2'
  have d12 := mouDelta_eq_sum moulton12 hist12 12 rfl h12 (by omega)
  have d16 := mouDelta_eq_sum moulton16 hist16 16 rfl h16 (by omega)
  have d20 := mouDelta_eq_sum moulton20 hist20 20 rfl h20 (by omega)
  refine ⟨⟨d12, ?_⟩, ⟨d16, ?_⟩, ⟨d20, ?_⟩⟩
  · have hfun : (fun yc => y0 + h * divisor12 *
        (moulton12.getD 0 0 * f x yc +
          ∑ j in Finset.Icc 1 11, moulton12.getD j 0 * hist12.getD (11 - j) 0))
        = amStep moulton12 divisor12 f y0 x h hist12 := by
      funext yc
      rw [← d12]
      rfl
    rw [hfun]
    exact main moulton12 divisor12 hist12
  · have hfun : (fun yc => y0 + h * divisor16 *
        (moulton16.getD 0 0 * f x yc +
          ∑ j in Finset.Icc 1 15, moulton16.getD j 0 * hist16.getD (15 - j) 0))
        = amStep moulton16 divisor16 f y0 x h hist16 := by
      funext yc
      rw [← d16]
      rfl
    rw [hfun]
    exact main moulton16 divisor16 hist16
  · have hfun : (fun yc => y0 + h * divisor20 *
        (moulton20.getD 0 0 * f x yc +
          ∑ j in Finset.Icc 1 19, moulton20.getD j 0 * hist20.getD (19 - j) 0))
        = amStep moulton20 divisor20 f y0 x h hist20 := by
      funext yc
      rw [← d20]
      rfl
    rw [hfun]
    exact main moulton20 divisor20 hist20

theorem corrector_delta_and_iteration_witness :
    ((mouDelta moulton12 (List.replicate 12 0)
        = ∑ j in Finset.Icc 1 11,
            moulton12.getD j 0 * (List.replicate 12 (0:ℚ)).getD (11 - j) 0) ∧
     ((Adams_Moulton_11_Steps (fun _ _ => 0) 0 0 0 0 (List.replicate 12 0) 0 0).y1,
      (Adams_Moulton_11_Steps (fun _ _ => 0) 0 0 0 0 (List.replicate 12 0) 0 0).ret)
        = correctorSpec (fun yc => 0 + 0 * divisor12 *
            (moulton12.getD 0 0 * (fun _ _ => (0:ℚ)) 0 yc +
              ∑ j in Finset.Icc 1 11,
                moulton12.getD j 0 * (List.replicate 12 (0:ℚ)).getD (11 - j) 0)) 0 0 0) ∧
    ((mouDelta moulton16 (List.replicate 16 0)
        = ∑ j in Finset.Icc 1 15,
            moulton16.getD j 0 * (List.replicate 16 (0:ℚ)).getD (15 - j) 0) ∧
     ((Adams_Moulton_15_Steps (fun _ _ => 0) 0 0 0 0 (List.replicate 16 0) 0 0).y1,
      (Adams_Moulton_15_Steps (fun _ _ => 0) 0 0 0 0 (List.replicate 16 0) 0 0).ret)
        = correctorSpec (fun yc => 0 + 0 * divisor16 *
            (moulton16.getD 0 0 * (fun _ _ => (0:ℚ)) 0 yc +
              ∑ j in Finset.Icc 1 15,
                moulton16.getD j 0 * (List.replicate 16 (0:ℚ)).getD (15 - j) 0)) 0 0 0) ∧
    ((mouDelta moulton20 (List.replicate 20 0)
        = ∑ j in Finset.Icc 1 19,
            moulton20.getD j 0 * (List.replicate 20 (0:ℚ)).getD (19 - j) 0) ∧
     ((Adams_Moulton_19_Steps (fun _ _ => 0) 0 0 0 0 (List.replicate 20 0) 0 0).y1,
      (Adams_Moulton_19_Steps (fun _ _ => 0) 0 0 0 0 (List.replicate 20 0) 0 0).ret)
        = correctorSpec (fun yc => 0 + 0 * divisor20 *
            (moulton20.getD 0 0 * (fun _ _ => (0:ℚ)) 0 yc +
              ∑ j in Finset.Icc 1 19,
                moulton20.getD j 0 * (List.replicate 20 (0:ℚ)).getD (19 - j) 0)) 0 0 0) :=
  corrector_delta_and_iteration (fun _ _ => 0) 0 0 0 0 0 0 _ _ _ rfl rfl rfl

/-- C5: with budget `N ≥ 1`, if the convergence test first succeeds on
iteration `m ≤ m ≤ N` (1-indexed) the corrector returns exactly `m`; the
return value equals `N + 1` precisely when all `N` iterations ran without
the test ever succeeding, and a return value exceeding the budget is
always exactly `N + 1` — the only failure signal. -/
theorem corrector_return_semantics :
    ∀ (f : ℚ → ℚ → ℚ) (y0 y1 x h tol : ℚ) (N m : ℕ) (hist : List ℚ),
      1 ≤ N → 1 ≤ m → m ≤ N →
      (((((List.range (m - 1)).all fun j =>
            !(hasConverged ((amStep moulton12 divisor12 f y0 x h hist)^[j] y1)
              ((amStep moulton12 divisor12 f y0 x h hist)^[j + 1] y1) tol)) = true ∧
          hasConverged ((amStep moulton12 divisor12 f y0 x h hist)^[m - 1] y1)
            ((amStep moulton12 divisor12 f y0 x h hist)^[m] y1) tol = true) →
          (Adams_Moulton_11_Steps f y0 y1 x h hist tol N).ret = m) ∧
       ((Adams_Moulton_11_Steps f y0 y1 x h hist tol N).ret = N + 1 ↔
          ((List.range N).all fun j =>
            !(hasConverged ((amStep moulton12 divisor12 f y0 x h hist)^[j] y1)
              ((amStep moulton12 divisor12 f y0 x h hist)^[j + 1] y1) tol)) = true) ∧
       (N < (Adams_Moulton_11_Steps f y0 y1 x h hist tol N).ret →
          (Adams_Moulton_11_Steps f y0 y1 x h hist tol N).ret = N + 1)) ∧
      (((((List.range (m - 1)).all fun j =>
            !(hasConverged ((amStep moulton16 divisor16 f y0 x h hist)^[j] y1)
              ((amStep moulton16 divisor16 f y0 x h hist)^[j + 1] y1) tol)) = true ∧
          hasConverged ((amStep moulton16 divisor16 f y0 x h hist)^[m - 1] y1)
            ((amStep moulton16 divisor16 f y0 x h hist)^[m] y1) tol = true) →
          (Adams_Moulton_15_Steps f y0 y1 x h hist tol N).ret = m) ∧
       ((Adams_Moulton_15_Steps f y0 y1 x h hist tol N).ret = N + 1 ↔
          ((List.range N).all fun j =>
            !(hasConverged ((amStep moulton16 divisor16 f y0 x h hist)^[j] y1)
              ((amStep moulton16 divisor16 f y0 x h hist)^[j + 1] y1) tol)) = true) ∧
       (N < (Adams_Moulton_15_Steps f y0 y1 x h hist tol N).ret →
          (Adams_Moulton_15_Steps f y0 y1 x h hist tol N).ret = N + 1)) ∧
      (((((List.range (m - 1)).all fun j =>
            !(hasConverged ((amStep moulton20 divisor20 f y0 x h hist)^[j] y1)
              ((amStep moulton20 divisor20 f y0 x h hist)^[j + 1] y1) tol)) = true ∧
          hasConverged ((amStep moulton20 divisor20 f y0 x h hist)^[m - 1] y1)
            ((amStep moulton20 divisor20 f y0 x h hist)^[m] y1) tol = true) →
          (Adams_Moulton_19_Steps f y0 y1 x h hist tol N).ret = m) ∧
       ((Adams_Moulton_19_Steps f y0 y1 x h hist tol N).ret = N + 1 ↔
          ((List.range N).all fun j =>
            !(hasConverged ((amStep moulton20 divisor20 f y0 x h hist)^[j] y1)
              ((amStep moulton20 divisor20 f y0 x h hist)^[j + 1] y1) tol)) = true) ∧
       (N < (Adams_Moulton_19_Steps f y0 y1 x h hist tol N).ret →
          (Adams_Moulton_19_Steps f y0 y1 x h hist tol N).ret = N + 1)) := by
  intro f y0 y1 x h tol N m hist hN hm hmN
  have main : ∀ (mou : List ℚ) (div : ℚ),
      (((((List.range (m - 1)).all fun j =>
          !(hasConverged ((amStep mou div f y0 x h hist)^[j] y1)
            ((amStep mou div f y0 x h hist)^[j + 1] y1) tol)) = true ∧
        hasConverged ((amStep mou div f y0 x h hist)^[m - 1] y1)
          ((amStep mou div f y0 x h hist)^[m] y1) tol = true) →
        (Adams_Moulton mou div f y0 y1 x h hist tol N).ret = m) ∧
      ((Adams_Moulton mou div f y0 y1 x h hist tol N).ret = N + 1 ↔
        ((List.range N).all fun j =>
          !(hasConverged ((amStep mou div f y0 x h hist)^[j] y1)
            ((amStep mou div f y0 x h hist)^[j + 1] y1) tol)) = true) ∧
      (N < (Adams_Moulton mou div f y0 y1 x h hist tol N).ret →
        (Adams_Moulton mou div f y0 y1 x h hist tol N).ret = N + 1)) := by
    intro mou div
    set S := amStep mou div f y0 x h hist with hS
    refine ⟨?_, ?_, ?_⟩
    · rintro ⟨hall, hconv⟩
      obtain ⟨m', rfl⟩ : ∃ m', m = m' + 1 := ⟨m - 1, by omega⟩
      simp only [Nat.add_sub_cancel] at hall hconv
      have hfail : ∀ j < m', hasConverged (S^[j] y1) (S^[j + 1] y1) tol = false := by
        intro j hj
        have := List.all_eq_true.mp hall j (List.mem_range.mpr hj)
        simpa using this
      show (amLoop S tol N 0 y1).ret = m' + 1
      rw [amLoop_break S tol N 0 m' y1 (by omega) hfail hconv]
      simp
    · show (amLoop S tol N 0 y1).ret = N + 1 ↔ _
      rw [amLoop_ret_budget_iff S tol N y1]
      constructor
      · intro hf
        exact List.all_eq_true.mpr fun j hj => by
          simpa using hf j (List.mem_range.mp hj)
      · intro hall j hj
        have := List.all_eq_true.mp hall j (List.mem_range.mpr hj)
        simpa using this
    · intro hlt
      obtain ⟨e1, e2, e3⟩ := amLoop_evals_spec S tol N 0 y1
      show (amLoop S tol N 0 y1).ret = N + 1
      have hlt' : N < (amLoop S tol N 0 y1).ret := hlt
      omega
  exact ⟨main moulton12 divisor12, main moulton16 divisor16, main moulton20 divisor20⟩

theorem corrector_return_semantics_witness :
    (((((List.range (1 - 1)).all fun j =>
          !(hasConverged ((amStep moulton12 divisor12 (fun _ _ => 0) 0 0 0 (List.replicate 12 0))^[j] 0)
            ((amStep moulton12 divisor12 (fun _ _ => 0) 0 0 0 (List.replicate 12 0))^[j + 1] 0) 1)) = true ∧
        hasConverged ((amStep moulton12 divisor12 (fun _ _ => 0) 0 0 0 (List.replicate 12 0))^[1 - 1] 0)
          ((amStep moulton12 divisor12 (fun _ _ => 0) 0 0 0 (List.replicate 12 0))^[1] 0) 1 = true) →
        (Adams_Moulton_11_Steps (fun _ _ => 0) 0 0 0 0 (List.replicate 12 0) 1 1).ret = 1) ∧
     ((Adams_Moulton_11_Steps (fun _ _ => 0) 0 0 0 0 (List.replicate 12 0) 1 1).ret = 1 + 1 ↔
        ((List.range 1).all fun j =>
          !(hasConverged ((amStep moulton12 divisor12 (fun _ _ => 0) 0 0 0 (List.replicate 12 0))^[j] 0)
            ((amStep moulton12 divisor12 (fun _ _ => 0) 0 0 0 (List.replicate 12 0))^[j + 1] 0) 1)) = true) ∧
     (1 < (Adams_Moulton_11_Steps (fun _ _ => 0) 0 0 0 0 (List.replicate 12 0) 1 1).ret →
        (Adams_Moulton_11_Steps (fun _ _ => 0) 0 0 0 0 (List.replicate 12 0) 1 1).ret = 1 + 1)) ∧
    (((((List.range (1 - 1)).all fun j =>
          !(hasConverged ((amStep moulton16 divisor16 (fun _ _ => 0) 0 0 0 (List.replicate 12 0))^[j] 0)
            ((amStep moulton16 divisor16 (fun _ _ => 0) 0 0 0 (List.replicate 12 0))^[j + 1] 0) 1)) = true ∧
        hasConverged ((amStep moulton16 divisor16 (fun _ _ => 0) 0 0 0 (List.replicate 12 0))^[1 - 1] 0)
          ((amStep moulton16 divisor16 (fun _ _ => 0) 0 0 0 (List.replicate 12 0))^[1] 0) 1 = true) →
        (Adams_Moulton_15_Steps (fun _ _ => 0) 0 0 0 0 (List.replicate 12 0) 1 1).ret = 1) ∧
     ((Adams_Moulton_15_Steps (fun _ _ => 0) 0 0 0 0 (List.replicate 12 0) 1 1).ret = 1 + 1 ↔
        ((List.range 1).all fun j =>
          !(hasConverged ((amStep moulton16 divisor16 (fun _ _ => 0) 0 0 0 (List.replicate 12 0))^[j] 0)
            ((amStep moulton16 divisor16 (fun _ _ => 0) 0 0 0 (List.replicate 12 0))^[j + 1] 0) 1)) = true) ∧
     (1 < (Adams_Moulton_15_Steps (fun _ _ => 0) 0 0 0 0 (List.replicate 12 0) 1 1).ret →
        (Adams_Moulton_15_Steps (fun _ _ => 0) 0 0 0 0 (List.replicate 12 0) 1 1).ret = 1 + 1)) ∧
    (((((List.range (1 - 1)).all fun j =>
          !(hasConverged ((amStep moulton20 divisor20 (fun _ _ => 0) 0 0 0 (List.replicate 12 0))^[j] 0)
            ((amStep moulton20 divisor20 (fun _ _ => 0) 0 0 0 (List.replicate 12 0))^[j + 1] 0) 1)) = true ∧
        hasConverged ((amStep moulton20 divisor20 (fun _ _ => 0) 0 0 0 (List.replicate 12 0))^[1 - 1] 0)
          ((amStep moulton20 divisor20 (fun _ _ => 0) 0 0 0 (List.replicate 12 0))^[1] 0) 1 = true) →
        (Adams_Moulton_19_Steps (fun _ _ => 0) 0 0 0 0 (List.replicate 12 0) 1 1).ret = 1) ∧
     ((Adams_Moulton_19_Steps (fun _ _ => 0) 0 0 0 0 (List.replicate 12 0) 1 1).ret = 1 + 1 ↔
        ((List.range 1).all fun j =>
          !(hasConverged ((amStep moulton20 divisor20 (fun _ _ => 0) 0 0 0 (List.replicate 12 0))^[j] 0)
            ((amStep moulton20 divisor20 (fun _ _ => 0) 0 0 0 (List.replicate 12 0))^[j + 1] 0) 1)) = true) ∧
     (1 < (Adams_Moulton_19_Steps (fun _ _ => 0) 0 0 0 0 (List.replicate 12 0) 1 1).ret →
        (Adams_Moulton_19_Steps (fun _ _ => 0) 0 0 0 0 (List.replicate 12 0) 1 1).ret = 1 + 1)) :=
  corrector_return_semantics (fun _ _ => 0) 0 0 0 0 1 1 1 (List.replicate 12 0)
    (Nat.le_refl 1) (Nat.le_refl 1) (Nat.le_refl 1)

end Adams
